import Mathlib

/-! Verification of the AgriTrack crop-residue pipeline
(`harvest_predictor.py`, `harvest_scheduler.py`, `machine_allocator.py`).

Shallow-embedding conventions:
* Python floats that only flow through comparisons and record fields are
  modelled as exact rationals (`ℚ`).  The NumPy least-squares fit inside
  `calculate_ndvi_decline_rate` is a floating-point computation, so its
  numeric outputs (`current_ndvi`, `decline_rate_per_day`, `r_squared`,
  `total_days`) are taken as inputs of the model (`DistrictSeries`).
* Dates are modelled at day granularity as integers (`ℤ`), matching the
  `%Y-%m-%d` strings and `timedelta(days=…)` arithmetic of the source
  (lexicographic order on zero-padded ISO date strings is date order).
* `list.sort` (Timsort) is stable; it is modelled by `List.insertionSort`
  with the corresponding non-strict comparison, which is stable with the
  same "earlier element wins ties" placement.
* The haversine distance runs on floating-point trigonometry; it is
  abstracted as a distance-function parameter `dist`.
* The iteration order of a Python `set` is implementation-defined (string
  hashing is seeded per process); it is modelled as a function parameter
  `order` constrained to enumerate the distinct elements.
-/

namespace AgriTrack

/-- Python `int()` conversion of a rational: truncation toward zero. -/
def pyTrunc (q : ℚ) : ℤ :=
  if q < 0 then -⌊-q⌋ else ⌊q⌋

/-- Python `round` to an integer: round half to even (banker's rounding),
modelled exactly on `ℚ`. -/
def roundHalfEven (q : ℚ) : ℤ :=
  if q - ⌊q⌋ < 1/2 then ⌊q⌋
  else if 1/2 < q - ⌊q⌋ then ⌊q⌋ + 1
  else if ⌊q⌋ % 2 = 0 then ⌊q⌋ else ⌊q⌋ + 1

/-- Python `round(q, d)`: round to `d` decimal places, half to even. -/
def pyRound (q : ℚ) (d : ℕ) : ℚ :=
  (roundHalfEven (q * 10 ^ d) : ℚ) / 10 ^ d

/-- Stable ascending sort by a key: model of Python `list.sort(key=…)`. -/
def pySortOn {α β : Type} [LinearOrder β] (key : α → β) (l : List α) : List α :=
  List.insertionSort (fun a b => key a ≤ key b) l

/-- Stable descending sort by a key: model of Python
`list.sort(key=…, reverse=True)` (equal keys keep their input order). -/
def pySortOnDesc {α β : Type} [LinearOrder β] (key : α → β) (l : List α) : List α :=
  List.insertionSort (fun a b => key b ≤ key a) l

/-- `status` values produced by `HarvestPredictor.predict_harvest_date`. -/
inductive PStatus
  | HARVEST_READY
  | NOT_DECLINING
  | PREDICTED
  deriving DecidableEq, Repr, Inhabited

/-- Per-district inputs of `predict_harvest_date`: the identifying columns of
the district's last data row together with the numeric outputs of
`calculate_ndvi_decline_rate` (whose least-squares fit is floating point and
therefore enters the model as data).  `numPoints` is `len(district_data)`;
the analysis reports an error (and `predict_harvest_date` returns `None`)
iff `numPoints < MIN_DATA_DAYS`. -/
structure DistrictSeries where
  district_id : String
  district_name : String
  state : String
  lat : ℚ
  lon : ℚ
  numPoints : ℕ
  current_ndvi : ℚ
  decline_rate : ℚ
  r_squared : ℚ
  deriving DecidableEq, Repr

/-- The dict returned by `HarvestPredictor.predict_harvest_date`. -/
structure Prediction where
  district_id : String
  district_name : String
  state : String
  lat : ℚ
  lon : ℚ
  current_ndvi : ℚ
  ndvi_decline_rate : ℚ
  predicted_harvest_date : Option ℤ
  days_until_harvest : Option ℤ
  priority_score : ℤ
  status : PStatus
  confidence : ℚ
  deriving DecidableEq, Repr, Inhabited

def HARVEST_THRESHOLD : ℚ := 0.4

def MIN_DATA_DAYS : ℕ := 7

/-- `HarvestPredictor._calculate_priority_score`. -/
def calculatePriorityScore (current_ndvi decline_rate : ℚ)
    (days_to_harvest : Option ℤ) : ℤ :=
  let s1 : ℤ :=
    if current_ndvi ≤ 0.35 then 4
    else if current_ndvi ≤ 0.45 then 3
    else if current_ndvi ≤ 0.55 then 2
    else if current_ndvi ≤ 0.65 then 1
    else 0
  let s2 : ℤ :=
    if decline_rate ≤ -0.02 then 3
    else if decline_rate ≤ -0.015 then 2
    else if decline_rate ≤ -0.01 then 1
    else 0
  let s3 : ℤ :=
    match days_to_harvest with
    | none => 0
    | some d => if d ≤ 3 then 3 else if d ≤ 7 then 2 else if d ≤ 14 then 1 else 0
  max 1 (min 10 (s1 + s2 + s3))

/-- The result dict literal of `predict_harvest_date` (common to its three
branches, which differ only in date, days and status). -/
def mkPrediction (d : DistrictSeries) (date days : Option ℤ) (st : PStatus) : Prediction :=
  { district_id := d.district_id, district_name := d.district_name
    state := d.state, lat := d.lat, lon := d.lon
    current_ndvi := d.current_ndvi, ndvi_decline_rate := d.decline_rate
    predicted_harvest_date := date, days_until_harvest := days
    priority_score := calculatePriorityScore d.current_ndvi d.decline_rate days
    status := st, confidence := d.r_squared }

/-- `HarvestPredictor.predict_harvest_date`; `now` is `datetime.now()` at day
granularity. -/
def predict_harvest_date (now : ℤ) (d : DistrictSeries) : Option Prediction :=
  if d.numPoints < MIN_DATA_DAYS then none
  else if d.current_ndvi ≤ HARVEST_THRESHOLD then
    some (mkPrediction d (some now) (some 0) PStatus.HARVEST_READY)
  else if 0 ≤ d.decline_rate then
    some (mkPrediction d none none PStatus.NOT_DECLINING)
  else
    let days := max 0 (pyTrunc ((HARVEST_THRESHOLD - d.current_ndvi) / d.decline_rate))
    some (mkPrediction d (some (now + days)) (some days) PStatus.PREDICTED)

/-- `HarvestPredictor.predict_all_districts`: one `DistrictSeries` per unique
district id, in order of first appearance in the data; insufficient-data
districts are dropped (`predict_harvest_date` returned `None`); the result
is sorted by `priority_score` descending with Python's stable sort. -/
def predict_all_districts (now : ℤ) (data : List DistrictSeries) : List Prediction :=
  pySortOnDesc (fun p => p.priority_score) (data.filterMap (predict_harvest_date now))

/-- Farmer fields consumed by `HarvestScheduler.create_clusters`. -/
structure Farmer where
  district_id : String
  field_acres : ℚ
  deriving DecidableEq, Repr

/-- Machine fields consumed by `HarvestScheduler.create_clusters`
(only `m.get('status')` is read there). -/
structure SMachine where
  status : Option String
  deriving DecidableEq, Repr

/-- The cluster `status` values of `create_clusters`. -/
inductive CStatus
  | completed
  | active
  | pending
  deriving DecidableEq, Repr

/-- `HarvestCluster` as filled in by `create_clusters` (`farmers` stays empty
there; the string formatting of `id`/`name` is kept as the underlying data
`num`, `letterIdx`, `firstDistrict`, from which the strings are built
injectively). -/
structure Cluster where
  num : ℕ
  letterIdx : ℕ
  firstDistrict : String
  region : String
  districts : List String
  district_ids : List String
  window_start : ℤ
  window_end : ℤ
  avg_ndvi : ℚ
  priority_score : ℤ
  machines_required : ℤ
  machines_allocated : ℤ
  total_acres : ℚ
  status : CStatus
  deriving DecidableEq, Repr

def CLUSTER_WINDOW_DAYS : ℤ := 5

def MIN_MACHINES_PER_CLUSTER : ℤ := 3

def ACRES_PER_MACHINE_PER_DAY : ℚ := 10

/-- Day number of the sentinel date string `'9999-12-31'` used by the
scheduler's `__init__` sort; any value above every date occurring in real
data gives the same behaviour. -/
def SENTINEL_DATE : ℤ := 2932896

/-- `predicted_harvest_date` as parsed by `datetime.strptime`; the `getD`
default is never reached on the filtered (valid) predictions. -/
def predDate (p : Prediction) : ℤ := p.predicted_harvest_date.getD 0

/-- The scheduler `__init__` sort key
`(p.get('predicted_harvest_date') or '9999-12-31', -p.get('priority_score', 0))`. -/
def initSortKey (p : Prediction) : ℤ ×ₗ ℤ :=
  toLex (p.predicted_harvest_date.getD SENTINEL_DATE, -p.priority_score)

/-- The `p.get('predicted_harvest_date') and p.get('status') != 'NOT_DECLINING'`
filter of `create_clusters`. -/
def validPred (p : Prediction) : Bool :=
  p.predicted_harvest_date.isSome && decide (p.status ≠ PStatus.NOT_DECLINING)

/-- Construction of one `HarvestCluster` from the non-empty
`districts_in_window` list. -/
def mkCluster (now : ℤ) (order : List String → List String) (farmers : List Farmer)
    (machines : List SMachine) (inWindow : List Prediction)
    (current wend : ℤ) (num : ℕ) : Cluster :=
  let n : ℚ := inWindow.length
  let avg_ndvi := (inWindow.map (fun d => d.current_ndvi)).sum / n
  let avg_priority := (inWindow.map (fun d => (d.priority_score : ℚ))).sum / n
  let regions := order (inWindow.map (fun d => d.state))
  let total_acres := (inWindow.map (fun d =>
    ((farmers.filter (fun f => f.district_id == d.district_id)).map
      (fun f => f.field_acres)).sum)).sum
  let required :=
    max MIN_MACHINES_PER_CLUSTER
      ⌈total_acres / (ACRES_PER_MACHINE_PER_DAY * (CLUSTER_WINDOW_DAYS : ℚ))⌉
  let available := machines.filter (fun m => m.status == some "available")
  { num := num
    letterIdx := (num - 1) % 26
    firstDistrict := ((inWindow.head?).map (fun d => d.district_name)).getD ""
    region := String.intercalate ", " regions
    districts := inWindow.map (fun d => d.district_name)
    district_ids := inWindow.map (fun d => d.district_id)
    window_start := current
    window_end := wend - 1
    avg_ndvi := pyRound avg_ndvi 4
    priority_score := roundHalfEven avg_priority
    machines_required := required
    machines_allocated := min required (available.length : ℤ)
    total_acres := total_acres
    status :=
      if wend < now then CStatus.completed
      else if current ≤ now ∧ now < wend then CStatus.active
      else CStatus.pending }

/-- The `districts_in_window` selection of the sweep: predictions whose date
lies in `[current, current + CLUSTER_WINDOW_DAYS)`. -/
def windowPreds (sorted : List Prediction) (current : ℤ) : List Prediction :=
  sorted.filter (fun p =>
    decide (current ≤ predDate p) && decide (predDate p < current + CLUSTER_WINDOW_DAYS))

/-- The `while current_date <= last_date` sweep of `create_clusters`.
`fuel` bounds the remaining iteration count; the wrapper passes
`(last + 1 - first).toNat`, which suffices because every iteration advances
`current` by `CLUSTER_WINDOW_DAYS ≥ 1`. -/
def sweep (now : ℤ) (order : List String → List String) (farmers : List Farmer)
    (machines : List SMachine) (sorted : List Prediction) (last : ℤ) :
    ℕ → ℤ → ℕ → List Cluster
  | 0, _, _ => []
  | fuel + 1, current, clusterNum =>
    if current ≤ last then
      if (windowPreds sorted current).isEmpty then
        sweep now order farmers machines sorted last fuel
          (current + CLUSTER_WINDOW_DAYS) clusterNum
      else
        mkCluster now order farmers machines (windowPreds sorted current) current
            (current + CLUSTER_WINDOW_DAYS) (clusterNum + 1) ::
          sweep now order farmers machines sorted last fuel
            (current + CLUSTER_WINDOW_DAYS) (clusterNum + 1)
    else []

/-- The prediction list the sweep runs on: the scheduler `__init__` sort of
`self.predictions`, the valid-prediction filter, then the date sort. -/
def sortedValidPreds (predictions : List Prediction) : List Prediction :=
  pySortOn predDate ((pySortOn initSortKey predictions).filter validPred)

/-- `HarvestScheduler(predictions, machines, farmers).create_clusters()`:
empty result when no prediction is valid, otherwise the window sweep from
the earliest to the latest predicted date.  `order` models the iteration
order of the Python `set` used for `regions`. -/
def create_clusters (now : ℤ) (order : List String → List String)
    (farmers : List Farmer) (machines : List SMachine)
    (predictions : List Prediction) : List Cluster :=
  if (sortedValidPreds predictions).isEmpty then []
  else
    sweep now order farmers machines (sortedValidPreds predictions)
      (predDate ((sortedValidPreds predictions).getLastD default))
      ((predDate ((sortedValidPreds predictions).getLastD default) + 1 -
        predDate ((sortedValidPreds predictions).headD default)).toNat)
      (predDate ((sortedValidPreds predictions).headD default)) 0

/-- A cluster with its `region` field blanked, used to state which parts of
the record are independent of the `set` iteration order. -/
def eraseRegion (c : Cluster) : Cluster := { c with region := "" }

/-- Machine record as consumed by `MachineAllocator` (`available` and
`capacity_acres_per_day` are read through `.get` with defaults, hence
`Option`). -/
structure AMachine where
  id : String
  type : String
  lat : ℚ
  lon : ℚ
  available : Option Bool
  capacity_acres_per_day : Option ℚ
  deriving DecidableEq, Repr

/-- The allocation dict built by `MachineAllocator.allocate_machines`
(the two nested location dicts are flattened into four fields). -/
structure Allocation where
  district_id : String
  district_name : String
  state : String
  priority_score : ℤ
  machine_id : String
  machine_type : String
  machine_capacity_acres_per_day : ℚ
  origin_lat : ℚ
  origin_lon : ℚ
  district_lat : ℚ
  district_lon : ℚ
  distance_km : ℚ
  eta_hours : ℚ
  predicted_harvest_date : Option ℤ
  days_until_harvest : Option ℤ
  deriving DecidableEq, Repr

/-- An entry of `self.unallocated_districts`. -/
structure UnallocatedRecord where
  district_id : String
  district_name : String
  priority_score : ℤ
  reason : String
  deriving DecidableEq, Repr

def TRANSPORT_SPEED_KMH : ℚ := 30

/-- `m.get('available', True)`. -/
def isAvailable (m : AMachine) : Bool := m.available.getD true

/-- The candidate list of `find_nearest_available_machine`: machines with
`available = True` (default), narrowed to `preferred_type` when that
narrowing is non-empty. -/
def candidateMachines (machines : List AMachine) (preferred : Option String) :
    List AMachine :=
  match preferred with
  | none => machines.filter isAvailable
  | some t =>
    if ((machines.filter isAvailable).filter (fun m => m.type == t)).isEmpty then
      machines.filter isAvailable
    else (machines.filter isAvailable).filter (fun m => m.type == t)

/-- `MachineAllocator.find_nearest_available_machine`, parameterized by the
distance function `dist` (the floating-point haversine of the source);
the candidates are sorted by distance with Python's stable sort and the
first one is returned (`None` when there is no candidate). -/
def find_nearest_available_machine (dist : ℚ → ℚ → ℚ → ℚ → ℚ)
    (machines : List AMachine) (district_lat district_lon : ℚ)
    (preferred : Option String) : Option (AMachine × ℚ) :=
  (pySortOn (fun md => md.2)
    ((candidateMachines machines preferred).map
      (fun m => (m, dist district_lat district_lon m.lat m.lon)))).head?

/-- The `for m in self.machines: if m['id'] == machine['id']: … break`
marking loop: flips `available` on the first machine with the given id. -/
def markUnavailable : List AMachine → String → List AMachine
  | [], _ => []
  | m :: ms, mid =>
    if m.id == mid then { m with available := some false } :: ms
    else m :: markUnavailable ms mid

/-- The allocation record built for prediction `p`, machine `m` at distance
`d` (`eta_hours = round(distance / TRANSPORT_SPEED_KMH, 1)`). -/
def mkAllocation (p : Prediction) (m : AMachine) (d : ℚ) : Allocation :=
  { district_id := p.district_id, district_name := p.district_name
    state := p.state, priority_score := p.priority_score
    machine_id := m.id, machine_type := m.type
    machine_capacity_acres_per_day := m.capacity_acres_per_day.getD 10
    origin_lat := m.lat, origin_lon := m.lon
    district_lat := p.lat, district_lon := p.lon
    distance_km := d, eta_hours := pyRound (d / TRANSPORT_SPEED_KMH) 1
    predicted_harvest_date := p.predicted_harvest_date
    days_until_harvest := p.days_until_harvest }

def mkUnallocated (p : Prediction) : UnallocatedRecord :=
  { district_id := p.district_id, district_name := p.district_name
    priority_score := p.priority_score, reason := "No available machines" }

/-- The main loop of `MachineAllocator.allocate_machines`, threading
`self.machines` through the availability mutation. -/
def allocate_loop (dist : ℚ → ℚ → ℚ → ℚ → ℚ) :
    List Prediction → List AMachine →
    List Allocation × List UnallocatedRecord × List AMachine
  | [], ms => ([], [], ms)
  | p :: ps, ms =>
    match find_nearest_available_machine dist ms p.lat p.lon none with
    | none =>
      let rest := allocate_loop dist ps ms
      (rest.1, mkUnallocated p :: rest.2.1, rest.2.2)
    | some (m, d) =>
      let rest := allocate_loop dist ps (markUnavailable ms m.id)
      (mkAllocation p m d :: rest.1, rest.2.1, rest.2.2)

/-- `MachineAllocator(machines, predictions).allocate_machines()`:
`__init__` copies each machine dict (a value-level identity here; the
aliasing content of the copy is analysed on the heap model below) and sorts
the predictions by `priority_score` descending with Python's stable sort. -/
def allocate_machines (dist : ℚ → ℚ → ℚ → ℚ → ℚ) (machines : List AMachine)
    (predictions : List Prediction) :
    List Allocation × List UnallocatedRecord × List AMachine :=
  allocate_loop dist (pySortOnDesc (fun p => p.priority_score) predictions) machines

/-- Heap of Python machine-dict objects, for the aliasing analysis of
`__init__`'s `self.machines = [m.copy() for m in machines]`: dicts live in a
store and lists hold pointers (indices). -/
abbrev MachineHeap := List AMachine

/-- `self.machines = [m.copy() for m in machines]`: a fresh copy of each
roster dict is appended to the heap; the allocator's private pointers are
the freshly allocated indices. -/
def initMachineCopies (h : MachineHeap) (roster : List ℕ) : MachineHeap × List ℕ :=
  (h ++ roster.filterMap (fun i => h[i]?),
   (List.range roster.length).map (fun k => k + h.length))

/-- Dereference `self.machines`. -/
def readMachines (h : MachineHeap) (ptrs : List ℕ) : List AMachine :=
  ptrs.filterMap (fun i => h[i]?)

/-- Heap version of the marking loop: mutates in place (`List.set`) the first
private machine whose id matches, then breaks. -/
def markUnavailableHeap (h : MachineHeap) : List ℕ → String → MachineHeap
  | [], _ => h
  | i :: is, mid =>
    match h[i]? with
    | some m =>
      if m.id == mid then h.set i { m with available := some false }
      else markUnavailableHeap h is mid
    | none => markUnavailableHeap h is mid

/-- Heap version of the allocation loop: reads `self.machines` through its
pointers and mutates availability in place. -/
def allocate_loop_heap (dist : ℚ → ℚ → ℚ → ℚ → ℚ) (ptrs : List ℕ) :
    List Prediction → MachineHeap →
    List Allocation × List UnallocatedRecord × MachineHeap
  | [], h => ([], [], h)
  | p :: ps, h =>
    match find_nearest_available_machine dist (readMachines h ptrs) p.lat p.lon none with
    | none =>
      let rest := allocate_loop_heap dist ptrs ps h
      (rest.1, mkUnallocated p :: rest.2.1, rest.2.2)
    | some (m, d) =>
      let rest := allocate_loop_heap dist ptrs ps (markUnavailableHeap h ptrs m.id)
      (mkAllocation p m d :: rest.1, rest.2.1, rest.2.2)

/-- Heap-level run of `MachineAllocator(machines, …).allocate_machines()`:
construct the allocator (copying the caller's roster dicts) and run the
loop; returns the final heap. -/
def allocator_run_heap (dist : ℚ → ℚ → ℚ → ℚ → ℚ) (h : MachineHeap)
    (roster : List ℕ) (predictions : List Prediction) : MachineHeap :=
  let ini := initMachineCopies h roster
  (allocate_loop_heap dist ini.2
    (pySortOnDesc (fun p => p.priority_score) predictions) ini.1).2.2

/-! Concrete fixtures used to evaluate the model on specific inputs. -/

/-- A trivial distance function (all machines equidistant). -/
def zeroDist : ℚ → ℚ → ℚ → ℚ → ℚ := fun _ _ _ _ => 0

/-- A district whose current index value is already below the threshold. -/
def exReady : DistrictSeries :=
  { district_id := "D1", district_name := "North", state := "Punjab", lat := 30, lon := 75,
    numPoints := 12, current_ndvi := 0.3, decline_rate := -0.02, r_squared := 1 }

/-- The prediction `predict_harvest_date 0 exReady` evaluates to. -/
def exReadyPred : Prediction :=
  { district_id := "D1", district_name := "North", state := "Punjab", lat := 30, lon := 75,
    current_ndvi := 0.3, ndvi_decline_rate := -0.02,
    predicted_harvest_date := some 0, days_until_harvest := some 0,
    priority_score := 10, status := PStatus.HARVEST_READY, confidence := 1 }

/-- A district with constant negative slope `-0.02` and current value `0.6`
(ten days above the threshold `0.4`). -/
def exSlope : DistrictSeries :=
  { district_id := "D2", district_name := "South", state := "Punjab", lat := 30, lon := 75,
    numPoints := 10, current_ndvi := 0.6, decline_rate := -0.02, r_squared := 1 }

/-- The prediction `predict_harvest_date 0 exSlope` evaluates to. -/
def exSlopePred : Prediction :=
  { district_id := "D2", district_name := "South", state := "Punjab", lat := 30, lon := 75,
    current_ndvi := 0.6, ndvi_decline_rate := -0.02,
    predicted_harvest_date := some 10, days_until_harvest := some 10,
    priority_score := 5, status := PStatus.PREDICTED, confidence := 1 }

/-- A district series whose prediction has urgency score 2 regardless of the
district id: used to exhibit tie-breaking behaviour. -/
def exTie (i : String) : DistrictSeries :=
  { district_id := i, district_name := i, state := "Punjab", lat := 30, lon := 75,
    numPoints := 7, current_ndvi := 0.5, decline_rate := 0, r_squared := 1 }

/-- Scheduler input fixture: a valid `PREDICTED` record for district `i` in
state `st` with predicted date `dt`. -/
def exPred (i st : String) (dt : ℤ) : Prediction :=
  { district_id := i, district_name := i, state := st, lat := 30, lon := 75,
    current_ndvi := 0.5, ndvi_decline_rate := -0.01,
    predicted_harvest_date := some dt, days_until_harvest := some dt,
    priority_score := 5, status := PStatus.PREDICTED, confidence := 1 }

def exMachineA : AMachine :=
  { id := "M1", type := "Baler", lat := 30, lon := 75, available := some true,
    capacity_acres_per_day := some 10 }

def exMachineB : AMachine :=
  { id := "M2", type := "Baler", lat := 31, lon := 76, available := some true,
    capacity_acres_per_day := some 10 }

/-! #### Stable-sort lemmas

Python's `list.sort` is stable; `List.insertionSort` with the matching
non-strict comparison inserts every element before the later-listed elements
it ties with, which realises the same order.  The lemmas below capture
sortedness, permutation, tie stability (`filter` at a fixed key is
preserved) and the "first minimum wins" shape of the head. -/

section StableSort

variable {α : Type} {r : α → α → Prop} [DecidableRel r]

theorem orderedInsert_filter_comm (p : α → Bool) (a : α) (l : List α)
    (hp : ∀ x y, ¬ r x y → p x = true → p y = false) :
    (List.orderedInsert r a l).filter p = ((a :: l).filter p) := by
  induction l with
  | nil => rfl
  | cons y ys ih =>
    by_cases hr : r a y
    · rw [List.orderedInsert, if_pos hr]
    · rw [List.orderedInsert, if_neg hr]
      rcases ha : p a with _ | _
      · simp [List.filter_cons, ha, ih]
      · have hy : p y = false := hp a y hr ha
        simp [List.filter_cons, ha, hy, ih]

theorem insertionSort_filter_eq (p : α → Bool)
    (hp : ∀ x y, ¬ r x y → p x = true → p y = false) :
    ∀ l : List α, (List.insertionSort r l).filter p = l.filter p
  | [] => rfl
  | a :: l => by
    rw [List.insertionSort, orderedInsert_filter_comm p _ _ hp, List.filter_cons,
      List.filter_cons, insertionSort_filter_eq p hp l]

theorem insertionSort_head_split [IsTotal α r] [IsTrans α r] :
    ∀ {l : List α} {h0 : α} {t : List α}, List.insertionSort r l = h0 :: t →
      ∃ l1 l2, l = l1 ++ h0 :: l2 ∧ (∀ x ∈ l1, ¬ r x h0) ∧ ∀ x ∈ l, r h0 x := by
  intro l
  induction l with
  | nil => intro h0 t hs; simp [List.insertionSort] at hs
  | cons a l ih =>
    intro h0 t hs
    rw [List.insertionSort] at hs
    rcases hsort : List.insertionSort r l with _ | ⟨h1, t1⟩
    · have hl : l = [] := by
        have hperm := List.perm_insertionSort r l
        rw [hsort] at hperm
        exact List.nil_perm.mp hperm
      subst hl
      rw [hsort, List.orderedInsert] at hs
      injection hs with ha ht
      subst ha
      refine ⟨[], [], rfl, by simp, ?_⟩
      intro x hx
      simp only [List.mem_singleton] at hx
      subst hx
      exact (IsTotal.total _ _).elim id id
    · rw [hsort, List.orderedInsert] at hs
      by_cases hr : r a h1
      · rw [if_pos hr] at hs
        injection hs with ha ht
        subst ha
        refine ⟨[], l, rfl, by simp, ?_⟩
        intro x hx
        rcases List.mem_cons.mp hx with rfl | hx
        · exact (IsTotal.total _ _).elim id id
        · have hx1 : x ∈ h1 :: t1 := by
            rw [← hsort]; exact (List.mem_insertionSort r).mpr hx
          rcases List.mem_cons.mp hx1 with rfl | hx1
          · exact hr
          · have hs1 := List.sorted_insertionSort r l
            rw [hsort] at hs1
            exact IsTrans.trans _ _ _ hr (List.rel_of_sorted_cons hs1 x hx1)
      · rw [if_neg hr] at hs
        injection hs with hh ht
        subst hh
        obtain ⟨l1, l2, hl, hl1, hmin⟩ := ih hsort
        refine ⟨a :: l1, l2, by rw [hl]; rfl, ?_, ?_⟩
        · intro x hx
          rcases List.mem_cons.mp hx with rfl | hx
          · exact hr
          · exact hl1 x hx
        · intro x hx
          rcases List.mem_cons.mp hx with rfl | hx
          · exact (IsTotal.total _ _).resolve_right hr
          · exact hmin x hx

end StableSort

/-- Totality instance for the ascending key comparison. -/
theorem keyTotal {α β : Type} [LinearOrder β] (key : α → β) :
    IsTotal α (fun a b => key a ≤ key b) :=
  ⟨fun a b => le_total (key a) (key b)⟩

/-- Transitivity instance for the ascending key comparison. -/
theorem keyTrans {α β : Type} [LinearOrder β] (key : α → β) :
    IsTrans α (fun a b => key a ≤ key b) :=
  ⟨fun _ _ _ hab hbc => le_trans hab hbc⟩

/-- Totality instance for the descending key comparison. -/
theorem keyTotalDesc {α β : Type} [LinearOrder β] (key : α → β) :
    IsTotal α (fun a b => key b ≤ key a) :=
  ⟨fun a b => le_total (key b) (key a)⟩

/-- Transitivity instance for the descending key comparison. -/
theorem keyTransDesc {α β : Type} [LinearOrder β] (key : α → β) :
    IsTrans α (fun a b => key b ≤ key a) :=
  ⟨fun _ _ _ hab hbc => le_trans hbc hab⟩

theorem pySortOn_perm {α β : Type} [LinearOrder β] (key : α → β) (l : List α) :
    List.Perm (pySortOn key l) l :=
  List.perm_insertionSort _ l

theorem pySortOn_sorted {α β : Type} [LinearOrder β] (key : α → β) (l : List α) :
    (pySortOn key l).Sorted (fun a b => key a ≤ key b) := by
  haveI := keyTotal key
  haveI := keyTrans key
  exact List.sorted_insertionSort _ l

theorem pySortOnDesc_perm {α β : Type} [LinearOrder β] (key : α → β) (l : List α) :
    List.Perm (pySortOnDesc key l) l :=
  List.perm_insertionSort _ l

theorem pySortOnDesc_sorted {α β : Type} [LinearOrder β] (key : α → β) (l : List α) :
    (pySortOnDesc key l).Sorted (fun a b => key b ≤ key a) := by
  haveI := keyTotalDesc key
  haveI := keyTransDesc key
  exact List.sorted_insertionSort _ l

/-! #### Predictor theorems -/

theorem mkPrediction_priority_score (d : DistrictSeries) (date days : Option ℤ)
    (st : PStatus) : (mkPrediction d date days st).priority_score =
      calculatePriorityScore d.current_ndvi d.decline_rate days := rfl

theorem calculatePriorityScore_range (c r : ℚ) (days : Option ℤ) :
    1 ≤ calculatePriorityScore c r days ∧ calculatePriorityScore c r days ≤ 10 := by
  unfold calculatePriorityScore
  exact ⟨le_max_left _ _, max_le (by norm_num) (min_le_left _ _)⟩

/-- Case analysis of `predict_harvest_date`: every returned prediction comes
from one of the three branches of the source. -/
theorem predict_harvest_date_cases (now : ℤ) (d : DistrictSeries) (p : Prediction)
    (h : predict_harvest_date now d = some p) :
    ¬ d.numPoints < MIN_DATA_DAYS ∧
    ((d.current_ndvi ≤ HARVEST_THRESHOLD ∧
        p = mkPrediction d (some now) (some 0) PStatus.HARVEST_READY) ∨
      (¬ d.current_ndvi ≤ HARVEST_THRESHOLD ∧ 0 ≤ d.decline_rate ∧
        p = mkPrediction d none none PStatus.NOT_DECLINING) ∨
      (¬ d.current_ndvi ≤ HARVEST_THRESHOLD ∧ ¬ 0 ≤ d.decline_rate ∧
        p = mkPrediction d
          (some (now + max 0 (pyTrunc ((HARVEST_THRESHOLD - d.current_ndvi) / d.decline_rate))))
          (some (max 0 (pyTrunc ((HARVEST_THRESHOLD - d.current_ndvi) / d.decline_rate))))
          PStatus.PREDICTED)) := by
  rw [predict_harvest_date] at h
  split at h
  · simp at h
  · next hnum =>
    refine ⟨hnum, ?_⟩
    split at h
    · next hc => exact Or.inl ⟨hc, (Option.some.inj h).symm⟩
    · next hc =>
      split at h
      · next hr => exact Or.inr (Or.inl ⟨hc, hr, (Option.some.inj h).symm⟩)
      · next hr => exact Or.inr (Or.inr ⟨hc, hr, (Option.some.inj h).symm⟩)

/-- C3: every prediction returned by the predictor carries an integer
urgency score lying in the closed interval [1, 10]. -/
theorem C3_priority_score_range (now : ℤ) (data : List DistrictSeries)
    (p : Prediction) (hp : p ∈ predict_all_districts now data) :
    1 ≤ p.priority_score ∧ p.priority_score ≤ 10 := by
  have hp2 : p ∈ data.filterMap (predict_harvest_date now) :=
    (pySortOnDesc_perm _ _).mem_iff.mp hp
  obtain ⟨d, _, hpd⟩ := List.mem_filterMap.mp hp2
  obtain ⟨-, hcase⟩ := predict_harvest_date_cases now d p hpd
  rcases hcase with ⟨_, rfl⟩ | ⟨_, _, rfl⟩ | ⟨_, _, rfl⟩ <;>
    · rw [mkPrediction_priority_score]
      exact calculatePriorityScore_range _ _ _

/-- C3 witness: the concrete district `exReady` yields a prediction whose
score is in range. -/
theorem C3_witness :
    exReadyPred ∈ predict_all_districts 0 [exReady] ∧
    1 ≤ exReadyPred.priority_score ∧ exReadyPred.priority_score ≤ 10 := by
  have hmem : exReadyPred ∈ predict_all_districts 0 [exReady] := by
    norm_num [predict_all_districts, predict_harvest_date, exReady, exReadyPred,
      MIN_DATA_DAYS, HARVEST_THRESHOLD, calculatePriorityScore, pySortOnDesc,
      List.insertionSort, List.orderedInsert, List.filterMap_cons, mkPrediction]
  exact ⟨hmem, C3_priority_score_range 0 [exReady] exReadyPred hmem⟩

/-- C4 counterexample: on a district already at/below the threshold the code
returns status `HARVEST_READY` (≠ `PREDICTED`) together with a non-null
`predicted_date` (it is set to `datetime.now()`), so "`predicted_date` is
null iff status ≠ Predicted" is false on the code. -/
theorem C4_counterexample :
    (predict_harvest_date 0 exReady).map (fun p => p.status) =
        some PStatus.HARVEST_READY ∧
    (predict_harvest_date 0 exReady).map (fun p => p.predicted_harvest_date) =
        some (some 0) := by
  constructor <;>
    norm_num [predict_harvest_date, exReady, MIN_DATA_DAYS, HARVEST_THRESHOLD, mkPrediction]

/-- C4 amended: `predicted_date` is null iff status = `NOT_DECLINING` (for
`HARVEST_READY` the date is `now`, non-null); whenever the status is
`HARVEST_READY`, `days_until_harvest` is 0. -/
theorem C4_amended_null_iff (now : ℤ) (d : DistrictSeries) (p : Prediction)
    (h : predict_harvest_date now d = some p) :
    (p.predicted_harvest_date = none ↔ p.status = PStatus.NOT_DECLINING) ∧
    (p.status = PStatus.HARVEST_READY → p.days_until_harvest = some 0) := by
  obtain ⟨-, hcase⟩ := predict_harvest_date_cases now d p h
  rcases hcase with ⟨_, rfl⟩ | ⟨_, _, rfl⟩ | ⟨_, _, rfl⟩ <;>
    refine ⟨?_, ?_⟩ <;> simp [mkPrediction]

/-- C4 witness for the amended claim, at the concrete district `exReady`. -/
theorem C4_witness :
    predict_harvest_date 0 exReady = some exReadyPred ∧
    ((exReadyPred.predicted_harvest_date = none ↔
        exReadyPred.status = PStatus.NOT_DECLINING) ∧
      (exReadyPred.status = PStatus.HARVEST_READY →
        exReadyPred.days_until_harvest = some 0)) := by
  have h : predict_harvest_date 0 exReady = some exReadyPred := by
    norm_num [predict_harvest_date, exReady, exReadyPred, MIN_DATA_DAYS,
      HARVEST_THRESHOLD, calculatePriorityScore, mkPrediction]
  exact ⟨h, C4_amended_null_iff 0 exReady exReadyPred h⟩

/-- C5 counterexample: two districts with equal urgency scores arrive in the
order D2, D1; `predict_all_districts` keeps the input order D2, D1 (stable
sort), although the unit-id order is D1 < D2 — so unit_id is not the
tie-break. -/
theorem C5_counterexample :
    (predict_all_districts 0 [exTie "D2", exTie "D1"]).map
        (fun p => (p.district_id, p.priority_score)) = [("D2", 2), ("D1", 2)] ∧
    (exTie "D1").district_id < (exTie "D2").district_id := by
  constructor
  · norm_num [predict_all_districts, predict_harvest_date, exTie, MIN_DATA_DAYS,
      HARVEST_THRESHOLD, calculatePriorityScore, pySortOnDesc, List.insertionSort,
      List.orderedInsert, List.filterMap_cons, mkPrediction]
  · show ("D1" : String) < "D2"
    simp
    decide

/-- C5 amended: `predict_all_districts` returns the non-null predictions
sorted descending by urgency score; the tie-break among equal scores is the
input order (stability), stated as: filtering the output at any fixed score
gives exactly the same list as filtering the unsorted prediction list. -/
theorem C5_sorted_stable (now : ℤ) (data : List DistrictSeries) :
    (predict_all_districts now data).Sorted
        (fun a b => b.priority_score ≤ a.priority_score) ∧
    List.Perm (predict_all_districts now data)
        (data.filterMap (predict_harvest_date now)) ∧
    ∀ s : ℤ, (predict_all_districts now data).filter
          (fun p => decide (p.priority_score = s)) =
        (data.filterMap (predict_harvest_date now)).filter
          (fun p => decide (p.priority_score = s)) := by
  refine ⟨pySortOnDesc_sorted _ _, pySortOnDesc_perm _ _, fun s => ?_⟩
  unfold predict_all_districts pySortOnDesc
  apply insertionSort_filter_eq
  intro x y hxy hx
  simp only [decide_eq_true_eq] at hx
  simp only [decide_eq_false_iff_not]
  intro hy
  exact hxy (le_of_eq (hy.trans hx.symm))

/-- C5 witness: the amended statement at the concrete tie fixture. -/
theorem C5_witness :
    (predict_all_districts 0 [exTie "D2", exTie "D1"]).Sorted
        (fun a b => b.priority_score ≤ a.priority_score) ∧
    List.Perm (predict_all_districts 0 [exTie "D2", exTie "D1"])
        ([exTie "D2", exTie "D1"].filterMap (predict_harvest_date 0)) ∧
    ∀ s : ℤ, (predict_all_districts 0 [exTie "D2", exTie "D1"]).filter
          (fun p => decide (p.priority_score = s)) =
        ([exTie "D2", exTie "D1"].filterMap (predict_harvest_date 0)).filter
          (fun p => decide (p.priority_score = s)) :=
  C5_sorted_stable 0 [exTie "D2", exTie "D1"]

/-- C6: with a fitted negative slope `m` and current value `c` above the
threshold, the returned days value is the integer truncation of
`(THRESHOLD - c) / m`: the extrapolated line is still at or above the
threshold after `days` days and strictly below it after `days + 1` days
(`THRESHOLD = c + m·days` up to the rounding of `int()`). -/
theorem C6_linear_extrapolation (now : ℤ) (d : DistrictSeries) (p : Prediction)
    (h : predict_harvest_date now d = some p)
    (hm : d.decline_rate < 0) (hc : HARVEST_THRESHOLD < d.current_ndvi) :
    ∃ days : ℤ, p.days_until_harvest = some days ∧
      days = ⌊(HARVEST_THRESHOLD - d.current_ndvi) / d.decline_rate⌋ ∧
      HARVEST_THRESHOLD ≤ d.current_ndvi + d.decline_rate * (days : ℚ) ∧
      d.current_ndvi + d.decline_rate * ((days : ℚ) + 1) < HARVEST_THRESHOLD := by
  obtain ⟨-, hcase⟩ := predict_harvest_date_cases now d p h
  rcases hcase with ⟨hc2, _⟩ | ⟨_, hr2, _⟩ | ⟨_, _, rfl⟩
  · exact absurd hc2 (not_le.mpr hc)
  · exact absurd hr2 (not_le.mpr hm)
  · set q := (HARVEST_THRESHOLD - d.current_ndvi) / d.decline_rate with hq
    have hqpos : 0 < q := div_pos_of_neg_of_neg (by linarith) hm
    have htrunc : pyTrunc q = ⌊q⌋ := by rw [pyTrunc, if_neg (not_lt.mpr hqpos.le)]
    have hmax : max 0 (pyTrunc q) = ⌊q⌋ := by
      rw [htrunc]
      exact max_eq_right (Int.floor_nonneg.mpr hqpos.le)
    have h3 : d.decline_rate * q = HARVEST_THRESHOLD - d.current_ndvi := by
      rw [hq, mul_comm]
      exact div_mul_cancel₀ _ (ne_of_lt hm)
    refine ⟨⌊q⌋, by simp [mkPrediction, hmax], rfl, ?_, ?_⟩
    · have h1 : (⌊q⌋ : ℚ) ≤ q := Int.floor_le q
      have h2 : d.decline_rate * q ≤ d.decline_rate * (⌊q⌋ : ℚ) :=
        mul_le_mul_of_nonpos_left h1 hm.le
      linarith
    · have h1 : q < (⌊q⌋ : ℚ) + 1 := Int.lt_floor_add_one q
      have h2 : d.decline_rate * ((⌊q⌋ : ℚ) + 1) < d.decline_rate * q :=
        mul_lt_mul_of_neg_left h1 hm
      linarith

/-- C6 witness: the spec's own example — start 0.8, decline 0.02/day,
current value 0.6, so `days = (0.4 - 0.6) / (-0.02) = 10`. -/
theorem C6_witness :
    predict_harvest_date 0 exSlope = some exSlopePred ∧
    ∃ days : ℤ, exSlopePred.days_until_harvest = some days ∧
      days = ⌊(HARVEST_THRESHOLD - exSlope.current_ndvi) / exSlope.decline_rate⌋ ∧
      HARVEST_THRESHOLD ≤ exSlope.current_ndvi + exSlope.decline_rate * (days : ℚ) ∧
      exSlope.current_ndvi + exSlope.decline_rate * ((days : ℚ) + 1) <
        HARVEST_THRESHOLD := by
  have h : predict_harvest_date 0 exSlope = some exSlopePred := by
    norm_num [predict_harvest_date, exSlope, exSlopePred, MIN_DATA_DAYS,
      HARVEST_THRESHOLD, calculatePriorityScore, pyTrunc, mkPrediction]
  exact ⟨h, C6_linear_extrapolation 0 exSlope exSlopePred h
    (by norm_num [exSlope]) (by norm_num [exSlope, HARVEST_THRESHOLD])⟩

/-! #### Scheduler theorems -/

theorem mkCluster_window_start (now : ℤ) (order : List String → List String)
    (farmers : List Farmer) (machines : List SMachine) (iw : List Prediction)
    (current wend : ℤ) (num : ℕ) :
    (mkCluster now order farmers machines iw current wend num).window_start = current := rfl

theorem mkCluster_window_end (now : ℤ) (order : List String → List String)
    (farmers : List Farmer) (machines : List SMachine) (iw : List Prediction)
    (current wend : ℤ) (num : ℕ) :
    (mkCluster now order farmers machines iw current wend num).window_end = wend - 1 := rfl

theorem mkCluster_district_ids (now : ℤ) (order : List String → List String)
    (farmers : List Farmer) (machines : List SMachine) (iw : List Prediction)
    (current wend : ℤ) (num : ℕ) :
    (mkCluster now order farmers machines iw current wend num).district_ids =
      iw.map (fun d => d.district_id) := rfl

/-- Every cluster emitted by the sweep starting at `current` has its stored
window inside `[current, last]`, with the stored end on the last included
day of its 5-day window. -/
theorem sweep_mem_shape (now : ℤ) (order : List String → List String)
    (farmers : List Farmer) (machines : List SMachine) (sorted : List Prediction)
    (last : ℤ) :
    ∀ (fuel : ℕ) (current : ℤ) (cnum : ℕ) (c : Cluster),
      c ∈ sweep now order farmers machines sorted last fuel current cnum →
      current ≤ c.window_start ∧ c.window_start ≤ last ∧
        c.window_end = c.window_start + (CLUSTER_WINDOW_DAYS - 1) := by
  intro fuel
  induction fuel with
  | zero => intro current cnum c hc; simp [sweep] at hc
  | succ fuel ih =>
    intro current cnum c hc
    rw [sweep] at hc
    split at hc
    · next hcl =>
      have hcwd : (0 : ℤ) < CLUSTER_WINDOW_DAYS := by norm_num [CLUSTER_WINDOW_DAYS]
      split at hc
      · obtain ⟨h1, h2, h3⟩ := ih _ _ c hc
        exact ⟨by linarith, h2, h3⟩
      · rcases List.mem_cons.mp hc with rfl | hc
        · rw [mkCluster_window_start, mkCluster_window_end]
          refine ⟨le_refl _, hcl, by ring⟩
        · obtain ⟨h1, h2, h3⟩ := ih _ _ c hc
          exact ⟨by linarith, h2, h3⟩
    · simp at hc

/-- The sweep's clusters are strictly ordered: each stored window ends
before the next one starts. -/
theorem sweep_chain (now : ℤ) (order : List String → List String)
    (farmers : List Farmer) (machines : List SMachine) (sorted : List Prediction)
    (last : ℤ) :
    ∀ (fuel : ℕ) (current : ℤ) (cnum : ℕ),
      (sweep now order farmers machines sorted last fuel current cnum).Pairwise
        (fun a b => a.window_end < b.window_start) := by
  intro fuel
  induction fuel with
  | zero => intro current cnum; simp [sweep]
  | succ fuel ih =>
    intro current cnum
    rw [sweep]
    split
    · next hcl =>
      split
      · exact ih _ _
      · refine List.Pairwise.cons ?_ (ih _ _)
        intro b hb
        obtain ⟨h1, -, -⟩ := sweep_mem_shape now order farmers machines sorted last
          fuel (current + CLUSTER_WINDOW_DAYS) _ b hb
        rw [mkCluster_window_end]
        linarith
    · simp

/-- Coverage: a prediction of `sorted` whose date lies in `[current, last]`
ends up in a cluster whose stored window contains its date, provided the
fuel dominates the remaining distance. -/
theorem sweep_covers (now : ℤ) (order : List String → List String)
    (farmers : List Farmer) (machines : List SMachine) (sorted : List Prediction)
    (last : ℤ) :
    ∀ (fuel : ℕ) (current : ℤ) (cnum : ℕ) (p : Prediction),
      p ∈ sorted → current ≤ predDate p → predDate p ≤ last →
      (last + 1 - current).toNat ≤ fuel →
      ∃ c ∈ sweep now order farmers machines sorted last fuel current cnum,
        c.window_start ≤ predDate p ∧ predDate p ≤ c.window_end ∧
        p.district_id ∈ c.district_ids := by
  intro fuel
  induction fuel with
  | zero =>
    intro current cnum p _ hcur hlast hfuel
    exfalso
    omega
  | succ fuel ih =>
    intro current cnum p hp hcur hlast hfuel
    have hcwd : CLUSTER_WINDOW_DAYS = 5 := rfl
    have hcl : current ≤ last := le_trans hcur hlast
    rw [sweep, if_pos hcl]
    by_cases hwin : predDate p < current + CLUSTER_WINDOW_DAYS
    · have hmem : p ∈ windowPreds sorted current := by
        rw [windowPreds, List.mem_filter]
        exact ⟨hp, by simp [hcur, hwin]⟩
      have hne : ¬ ((windowPreds sorted current).isEmpty = true) := by
        intro hempty
        rw [List.isEmpty_iff] at hempty
        rw [hempty] at hmem
        exact absurd hmem (List.not_mem_nil p)
      rw [if_neg hne]
      refine ⟨mkCluster now order farmers machines (windowPreds sorted current) current
        (current + CLUSTER_WINDOW_DAYS) (cnum + 1), List.mem_cons_self _ _, ?_, ?_, ?_⟩
      · rw [mkCluster_window_start]; exact hcur
      · rw [mkCluster_window_end]; omega
      · rw [mkCluster_district_ids]
        exact List.mem_map_of_mem _ hmem
    · push_neg at hwin
      split
      · exact ih (current + CLUSTER_WINDOW_DAYS) cnum p hp hwin hlast (by omega)
      · obtain ⟨c, hc, hprops⟩ :=
          ih (current + CLUSTER_WINDOW_DAYS) (cnum + 1) p hp hwin hlast (by omega)
        exact ⟨c, List.mem_cons_of_mem _ hc, hprops⟩

/-- In a list sorted ascending by an integer key, every element's key is at
most the key of the last element. -/
theorem sorted_le_getLastD {α : Type} (key : α → ℤ) :
    ∀ (p0 : α) (ps : List α), (p0 :: ps).Pairwise (fun a b => key a ≤ key b) →
      ∀ x ∈ p0 :: ps, key x ≤ key (List.getLastD ps p0)
  | _, [], _ => by simp
  | p0, q :: qs, h => by
    intro x hx
    rw [List.getLastD_cons]
    have h2 : (q :: qs).Pairwise (fun a b => key a ≤ key b) := (List.pairwise_cons.mp h).2
    rcases List.mem_cons.mp hx with rfl | hx
    · have hq : key x ≤ key q := (List.pairwise_cons.mp h).1 q (List.mem_cons_self q qs)
      exact le_trans hq (sorted_le_getLastD key q qs h2 q (List.mem_cons_self q qs))
    · exact sorted_le_getLastD key q qs h2 x hx

/-- Unfolding `create_clusters` when the filtered, date-sorted prediction
list is non-empty. -/
theorem create_clusters_cons (now : ℤ) (order : List String → List String)
    (farmers : List Farmer) (machines : List SMachine) (preds : List Prediction)
    (p0 : Prediction) (ps : List Prediction)
    (hS : sortedValidPreds preds = p0 :: ps) :
    create_clusters now order farmers machines preds =
      sweep now order farmers machines (p0 :: ps) (predDate (List.getLastD ps p0))
        ((predDate (List.getLastD ps p0) + 1 - predDate p0).toNat) (predDate p0) 0 := by
  rw [create_clusters, hS]
  simp only [List.isEmpty_cons, Bool.false_eq_true, if_false, List.headD_cons,
    List.getLastD_cons]

/-- C2: the clusters produced by `create_clusters` have pairwise disjoint
stored windows, and every input prediction with a non-null date and status
other than `NOT_DECLINING` belongs to exactly one cluster: its date lies in
exactly one stored window, and its district id is listed there. -/
theorem C2_clusters_partition (now : ℤ) (order : List String → List String)
    (farmers : List Farmer) (machines : List SMachine)
    (preds : List Prediction) (p : Prediction) (hp : p ∈ preds)
    (hdate : p.predicted_harvest_date.isSome = true)
    (hstat : p.status ≠ PStatus.NOT_DECLINING) :
    (create_clusters now order farmers machines preds).Pairwise
        (fun a b => a.window_end < b.window_start ∨ b.window_end < a.window_start) ∧
    ∃! c : Cluster, c ∈ create_clusters now order farmers machines preds ∧
        c.window_start ≤ predDate p ∧ predDate p ≤ c.window_end ∧
        p.district_id ∈ c.district_ids := by
  have hvalid : validPred p = true := by
    rw [validPred]
    simp [hdate, hstat]
  have hpS : p ∈ sortedValidPreds preds := by
    rw [sortedValidPreds]
    refine (pySortOn_perm _ _).mem_iff.mpr ?_
    rw [List.mem_filter]
    exact ⟨(pySortOn_perm _ _).mem_iff.mpr hp, hvalid⟩
  rcases hS : sortedValidPreds preds with _ | ⟨p0, ps⟩
  · rw [hS] at hpS
    exact absurd hpS (List.not_mem_nil p)
  · rw [create_clusters_cons now order farmers machines preds p0 ps hS]
    rw [hS] at hpS
    have hsorted : (p0 :: ps).Pairwise (fun a b => predDate a ≤ predDate b) := by
      have := pySortOn_sorted predDate ((pySortOn initSortKey preds).filter validPred)
      rw [sortedValidPreds] at hS
      rw [hS] at this
      exact this
    have hfirst : predDate p0 ≤ predDate p := by
      rcases List.mem_cons.mp hpS with rfl | hx
      · exact le_refl _
      · exact List.rel_of_sorted_cons hsorted p hx
    have hlast : predDate p ≤ predDate (List.getLastD ps p0) :=
      sorted_le_getLastD predDate p0 ps hsorted p hpS
    have hchain := sweep_chain now order farmers machines (p0 :: ps)
      (predDate (List.getLastD ps p0))
      ((predDate (List.getLastD ps p0) + 1 - predDate p0).toNat) (predDate p0) 0
    refine ⟨hchain.imp (fun h => Or.inl h), ?_⟩
    obtain ⟨c, hc, h1, h2, h3⟩ := sweep_covers now order farmers machines (p0 :: ps)
      (predDate (List.getLastD ps p0))
      ((predDate (List.getLastD ps p0) + 1 - predDate p0).toNat) (predDate p0) 0 p
      hpS hfirst hlast (le_refl _)
    refine ⟨c, ⟨hc, h1, h2, h3⟩, ?_⟩
    rintro c2 ⟨hc2, g1, g2, g3⟩
    by_contra hne
    have hsym : Symmetric (fun a b : Cluster =>
        a.window_end < b.window_start ∨ b.window_end < a.window_start) :=
      fun a b h => h.symm
    have hforall := List.Pairwise.forall hsym (hchain.imp (fun h => Or.inl h))
    rcases hforall hc2 hc hne with h | h
    · omega
    · omega

/-- C2 witness: one valid prediction on a one-element input list. -/
theorem C2_witness :
    ((create_clusters 0 (fun l => l.dedup) [] [] [exPred "A" "Punjab" 0]).Pairwise
        (fun a b => a.window_end < b.window_start ∨ b.window_end < a.window_start) ∧
      ∃! c : Cluster, c ∈ create_clusters 0 (fun l => l.dedup) [] [] [exPred "A" "Punjab" 0] ∧
        c.window_start ≤ predDate (exPred "A" "Punjab" 0) ∧
        predDate (exPred "A" "Punjab" 0) ≤ c.window_end ∧
        (exPred "A" "Punjab" 0).district_id ∈ c.district_ids) :=
  C2_clusters_partition 0 (fun l => l.dedup) [] [] [exPred "A" "Punjab" 0]
    (exPred "A" "Punjab" 0) (List.mem_cons_self _ _) rfl (by simp [exPred])

/-- C10 counterexample: with predicted dates 0 and 12 the middle window
`[5, 10)` is empty and skipped, so the first cluster's stored end (day 4) is
six days — not one day — before the next cluster's start (day 10). -/
theorem C10_counterexample :
    (create_clusters 0 (fun l => l.dedup) [] []
        [exPred "A" "Punjab" 0, exPred "B" "Punjab" 12]).map
      (fun c => (c.window_start, c.window_end)) = [(0, 4), (10, 14)] ∧
    ¬ (create_clusters 0 (fun l => l.dedup) [] []
        [exPred "A" "Punjab" 0, exPred "B" "Punjab" 12]).Chain'
      (fun a b => a.window_end + 1 = b.window_start) := by
  have hS : sortedValidPreds [exPred "A" "Punjab" 0, exPred "B" "Punjab" 12] =
      [exPred "A" "Punjab" 0, exPred "B" "Punjab" 12] := by
    norm_num [sortedValidPreds, pySortOn, List.insertionSort, List.orderedInsert,
      validPred, exPred, initSortKey, predDate, List.filter_cons, Prod.Lex.le_iff,
      SENTINEL_DATE]
  rw [create_clusters_cons 0 (fun l => l.dedup) [] [] _ _ _ hS]
  norm_num [predDate, exPred, List.getLastD]
  norm_num [sweep, show (13:ℕ) = 12+1 from rfl, show (12:ℕ) = 11+1 from rfl,
    show (11:ℕ) = 10+1 from rfl, show (10:ℕ) = 9+1 from rfl,
    windowPreds, List.filter_cons, predDate, exPred, CLUSTER_WINDOW_DAYS,
    mkCluster_window_start, mkCluster_window_end, List.chain'_cons]

/-- C10 amended: every stored window ends exactly `CLUSTER_WINDOW_DAYS - 1`
days after it starts (the last included day, not the exclusive sweep
boundary), so `window_end > window_start` always holds; and each cluster's
stored end lies strictly before the next cluster's start (it is exactly one
day before only when no empty window intervenes). -/
theorem C10_window_shape (now : ℤ) (order : List String → List String)
    (farmers : List Farmer) (machines : List SMachine) (preds : List Prediction) :
    (∀ c ∈ create_clusters now order farmers machines preds,
        c.window_end = c.window_start + (CLUSTER_WINDOW_DAYS - 1) ∧
        c.window_start < c.window_end) ∧
    (create_clusters now order farmers machines preds).Pairwise
        (fun a b => a.window_end < b.window_start) := by
  rcases hS : sortedValidPreds preds with _ | ⟨p0, ps⟩
  · have hnil : create_clusters now order farmers machines preds = [] := by
      rw [create_clusters, hS]
      simp
    rw [hnil]
    simp
  · rw [create_clusters_cons now order farmers machines preds p0 ps hS]
    refine ⟨?_, sweep_chain _ _ _ _ _ _ _ _ _⟩
    intro c hc
    obtain ⟨-, -, h3⟩ := sweep_mem_shape _ _ _ _ _ _ _ _ _ c hc
    refine ⟨h3, ?_⟩
    rw [h3]
    norm_num [CLUSTER_WINDOW_DAYS]

/-- C10 witness: the amended statement at a concrete input. -/
theorem C10_witness :
    (∀ c ∈ create_clusters 0 (fun l => l.dedup) [] [] [exPred "A" "Punjab" 0],
        c.window_end = c.window_start + (CLUSTER_WINDOW_DAYS - 1) ∧
        c.window_start < c.window_end) ∧
    (create_clusters 0 (fun l => l.dedup) [] [] [exPred "A" "Punjab" 0]).Pairwise
        (fun a b => a.window_end < b.window_start) :=
  C10_window_shape 0 (fun l => l.dedup) [] [] [exPred "A" "Punjab" 0]

theorem mkCluster_region (now : ℤ) (order : List String → List String)
    (farmers : List Farmer) (machines : List SMachine) (iw : List Prediction)
    (current wend : ℤ) (num : ℕ) :
    (mkCluster now order farmers machines iw current wend num).region =
      String.intercalate ", " (order (iw.map (fun d => d.state))) := rfl

/-- C9 counterexample: the cluster `region` string joins
`list(set(state for …))`, whose iteration order is implementation-defined
(string hashes are seeded per process).  Two runs on identical predictions,
rosters and `now`, differing only in that ambient set order, produce
different cluster records. -/
theorem C9_counterexample :
    (create_clusters 0 (fun l => l.dedup) [] []
        [exPred "A" "Punjab" 0, exPred "B" "Haryana" 0]).map (fun c => c.region) =
      ["Punjab, Haryana"] ∧
    (create_clusters 0 (fun l => l.dedup.reverse) [] []
        [exPred "A" "Punjab" 0, exPred "B" "Haryana" 0]).map (fun c => c.region) =
      ["Haryana, Punjab"] ∧
    create_clusters 0 (fun l => l.dedup) [] []
        [exPred "A" "Punjab" 0, exPred "B" "Haryana" 0] ≠
      create_clusters 0 (fun l => l.dedup.reverse) [] []
        [exPred "A" "Punjab" 0, exPred "B" "Haryana" 0] := by
  have hS : sortedValidPreds [exPred "A" "Punjab" 0, exPred "B" "Haryana" 0] =
      [exPred "A" "Punjab" 0, exPred "B" "Haryana" 0] := by
    norm_num [sortedValidPreds, pySortOn, List.insertionSort, List.orderedInsert,
      validPred, exPred, initSortKey, predDate, List.filter_cons, Prod.Lex.le_iff,
      SENTINEL_DATE]
  have h1 : (create_clusters 0 (fun l => l.dedup) [] []
      [exPred "A" "Punjab" 0, exPred "B" "Haryana" 0]).map (fun c => c.region) =
      ["Punjab, Haryana"] := by
    rw [create_clusters_cons 0 (fun l => l.dedup) [] [] _ _ _ hS]
    norm_num [predDate, exPred, List.getLastD]
    norm_num [sweep, show (1:ℕ) = 0+1 from rfl, windowPreds, List.filter_cons,
      predDate, exPred, CLUSTER_WINDOW_DAYS, mkCluster_region]
    rw [show (["Punjab", "Haryana"] : List String).dedup = ["Punjab", "Haryana"] from by
      simp [List.dedup_cons_of_not_mem]]
    rfl
  have h2 : (create_clusters 0 (fun l => l.dedup.reverse) [] []
      [exPred "A" "Punjab" 0, exPred "B" "Haryana" 0]).map (fun c => c.region) =
      ["Haryana, Punjab"] := by
    rw [create_clusters_cons 0 (fun l => l.dedup.reverse) [] [] _ _ _ hS]
    norm_num [predDate, exPred, List.getLastD]
    norm_num [sweep, show (1:ℕ) = 0+1 from rfl, windowPreds, List.filter_cons,
      predDate, exPred, CLUSTER_WINDOW_DAYS, mkCluster_region]
    rw [show (["Punjab", "Haryana"] : List String).dedup = ["Punjab", "Haryana"] from by
      simp [List.dedup_cons_of_not_mem]]
    rfl
  refine ⟨h1, h2, fun heq => ?_⟩
  rw [heq, h2] at h1
  have : ("Haryana, Punjab" : String) = "Punjab, Haryana" := by
    injection h1
  exact absurd this (by decide)

/-- The erased-region projection of the sweep does not depend on the set
iteration order: `order` feeds only the `region` field. -/
theorem sweep_eraseRegion_order (now : ℤ) (o1 o2 : List String → List String)
    (farmers : List Farmer) (machines : List SMachine) (sorted : List Prediction)
    (last : ℤ) :
    ∀ (fuel : ℕ) (current : ℤ) (cnum : ℕ),
      (sweep now o1 farmers machines sorted last fuel current cnum).map eraseRegion =
      (sweep now o2 farmers machines sorted last fuel current cnum).map eraseRegion := by
  intro fuel
  induction fuel with
  | zero => intro current cnum; rfl
  | succ fuel ih =>
    intro current cnum
    rw [sweep, sweep]
    split
    · split
      · exact ih _ _
      · rw [List.map_cons, List.map_cons, ih _ _]
        have : eraseRegion (mkCluster now o1 farmers machines
            (windowPreds sorted current) current (current + CLUSTER_WINDOW_DAYS)
            (cnum + 1)) = eraseRegion (mkCluster now o2 farmers machines
            (windowPreds sorted current) current (current + CLUSTER_WINDOW_DAYS)
            (cnum + 1)) := by
          simp [eraseRegion, mkCluster]
        rw [this]
    · rfl

/-- C9 amended: with a fixed `now`, the full cluster computation is a
function of the inputs except for the `region` field, which additionally
depends on the process's set-iteration order: blanking `region` makes the
outputs of any two runs identical. -/
theorem C9_deterministic_up_to_region (now : ℤ) (o1 o2 : List String → List String)
    (farmers : List Farmer) (machines : List SMachine) (preds : List Prediction) :
    (create_clusters now o1 farmers machines preds).map eraseRegion =
    (create_clusters now o2 farmers machines preds).map eraseRegion := by
  rcases hS : sortedValidPreds preds with _ | ⟨p0, ps⟩
  · rw [create_clusters, create_clusters, hS]
    simp
  · rw [create_clusters_cons now o1 farmers machines preds p0 ps hS,
      create_clusters_cons now o2 farmers machines preds p0 ps hS]
    exact sweep_eraseRegion_order now o1 o2 farmers machines (p0 :: ps) _ _ _ _

/-- C9 witness: the amended statement at the counterexample's input. -/
theorem C9_witness :
    (create_clusters 0 (fun l => l.dedup) [] []
        [exPred "A" "Punjab" 0, exPred "B" "Haryana" 0]).map eraseRegion =
    (create_clusters 0 (fun l => l.dedup.reverse) [] []
        [exPred "A" "Punjab" 0, exPred "B" "Haryana" 0]).map eraseRegion :=
  C9_deterministic_up_to_region 0 (fun l => l.dedup) (fun l => l.dedup.reverse) [] []
    [exPred "A" "Punjab" 0, exPred "B" "Haryana" 0]

/-! #### Allocator theorems -/

theorem candidateMachines_subset (machines : List AMachine) (pref : Option String) :
    ∀ m ∈ candidateMachines machines pref, m ∈ machines.filter isAvailable := by
  intro m hm
  rcases pref with _ | t
  · exact hm
  · rw [candidateMachines] at hm
    split at hm
    · exact hm
    · exact List.mem_of_mem_filter hm

/-- Full specification of `find_nearest_available_machine`: the returned
machine is an available candidate, its distance is the reported one and is
minimal over all candidates, the preferred-type narrowing applies whenever
it is non-empty, and among equally-near candidates the earliest in input
order is returned (every candidate listed before it is strictly farther). -/
theorem find_nearest_spec (dist : ℚ → ℚ → ℚ → ℚ → ℚ) (machines : List AMachine)
    (dlat dlon : ℚ) (pref : Option String) (m : AMachine) (d : ℚ)
    (h : find_nearest_available_machine dist machines dlat dlon pref = some (m, d)) :
    m ∈ candidateMachines machines pref ∧ isAvailable m = true ∧
    d = dist dlat dlon m.lat m.lon ∧
    (∀ m2 ∈ candidateMachines machines pref, d ≤ dist dlat dlon m2.lat m2.lon) ∧
    (∀ t, pref = some t →
      (∃ ma ∈ machines.filter isAvailable, ma.type = t) → m.type = t) ∧
    ∃ pre post, candidateMachines machines pref = pre ++ m :: post ∧
      ∀ m2 ∈ pre, d < dist dlat dlon m2.lat m2.lon := by
  rw [find_nearest_available_machine] at h
  rcases hsort : pySortOn (fun md : AMachine × ℚ => md.2)
      ((candidateMachines machines pref).map
        (fun m2 => (m2, dist dlat dlon m2.lat m2.lon))) with _ | ⟨hd, tl⟩
  · rw [hsort] at h
    simp at h
  · rw [hsort] at h
    simp only [List.head?_cons, Option.some.injEq] at h
    subst h
    rw [pySortOn] at hsort
    haveI := keyTotal (fun md : AMachine × ℚ => md.2)
    haveI := keyTrans (fun md : AMachine × ℚ => md.2)
    obtain ⟨l1, l2, hsplit, hl1, hmin⟩ := insertionSort_head_split hsort
    have hmem : (m, d) ∈ (candidateMachines machines pref).map
        (fun m2 => (m2, dist dlat dlon m2.lat m2.lon)) := by
      rw [hsplit]
      exact List.mem_append_right _ (List.mem_cons_self _ _)
    obtain ⟨m0, hm0, hfm0⟩ := List.mem_map.mp hmem
    obtain ⟨heq0, hd0⟩ : m0 = m ∧ dist dlat dlon m0.lat m0.lon = d :=
      ⟨congrArg Prod.fst hfm0, congrArg Prod.snd hfm0⟩
    have heq0s : m = m0 := heq0.symm
    subst heq0s
    have havail : isAvailable m = true :=
      (List.mem_filter.mp (candidateMachines_subset machines pref m hm0)).2
    refine ⟨hm0, havail, hd0.symm, ?_, ?_, ?_⟩
    · intro m2 hm2
      have : (m2, dist dlat dlon m2.lat m2.lon) ∈
          (candidateMachines machines pref).map
            (fun m2 => (m2, dist dlat dlon m2.lat m2.lon)) :=
        List.mem_map_of_mem _ hm2
      exact hmin _ this
    · rintro t rfl ⟨ma, hma, hmat⟩
      have htyped : ma ∈ (machines.filter isAvailable).filter
          (fun m2 => m2.type == t) := by
        rw [List.mem_filter]
        exact ⟨hma, by simp [hmat]⟩
      have hne : ¬ (((machines.filter isAvailable).filter
          (fun m2 => m2.type == t)).isEmpty = true) := by
        intro hempty
        rw [List.isEmpty_iff] at hempty
        rw [hempty] at htyped
        exact absurd htyped (List.not_mem_nil ma)
      rw [candidateMachines, if_neg hne] at hm0
      have := (List.mem_filter.mp hm0).2
      simpa using this
    · obtain ⟨c1, c2, hc, hmap1, hmap2⟩ := List.map_eq_append_iff.mp hsplit
      rcases c2 with _ | ⟨mm, c2t⟩
      · simp at hmap2
      · rw [List.map_cons] at hmap2
        have hmm : mm = m := congrArg Prod.fst (List.head_eq_of_cons_eq hmap2)
        subst hmm
        refine ⟨c1, c2t, hc, ?_⟩
        intro m2 hm2
        have : (m2, dist dlat dlon m2.lat m2.lon) ∈ l1 := by
          rw [← hmap1]
          exact List.mem_map_of_mem _ hm2
        have hnot := hl1 _ this
        simp only [not_le] at hnot
        exact hnot

/-- C7: `find_nearest_available_machine` considers only available machines,
narrows to the preferred type when possible, and returns a candidate at
minimum computed distance, breaking ties by input order. -/
theorem C7_find_nearest (dist : ℚ → ℚ → ℚ → ℚ → ℚ) (machines : List AMachine)
    (dlat dlon : ℚ) (pref : Option String) (m : AMachine) (d : ℚ)
    (h : find_nearest_available_machine dist machines dlat dlon pref = some (m, d)) :
    m ∈ candidateMachines machines pref ∧ isAvailable m = true ∧
    d = dist dlat dlon m.lat m.lon ∧
    (∀ m2 ∈ candidateMachines machines pref, d ≤ dist dlat dlon m2.lat m2.lon) ∧
    (∀ t, pref = some t →
      (∃ ma ∈ machines.filter isAvailable, ma.type = t) → m.type = t) ∧
    ∃ pre post, candidateMachines machines pref = pre ++ m :: post ∧
      ∀ m2 ∈ pre, d < dist dlat dlon m2.lat m2.lon :=
  find_nearest_spec dist machines dlat dlon pref m d h

/-- C7 witness: two equidistant available machines; the first in input order
is returned. -/
theorem C7_witness :
    find_nearest_available_machine zeroDist [exMachineA, exMachineB] 30 75 none =
      some (exMachineA, 0) ∧
    (exMachineA ∈ candidateMachines [exMachineA, exMachineB] none ∧
      isAvailable exMachineA = true ∧
      (0 : ℚ) = zeroDist 30 75 exMachineA.lat exMachineA.lon ∧
      (∀ m2 ∈ candidateMachines [exMachineA, exMachineB] none,
        (0 : ℚ) ≤ zeroDist 30 75 m2.lat m2.lon) ∧
      (∀ t, (none : Option String) = some t →
        (∃ ma ∈ ([exMachineA, exMachineB] : List AMachine).filter isAvailable,
          ma.type = t) → exMachineA.type = t) ∧
      ∃ pre post, candidateMachines [exMachineA, exMachineB] none =
          pre ++ exMachineA :: post ∧
        ∀ m2 ∈ pre, (0 : ℚ) < zeroDist 30 75 m2.lat m2.lon) := by
  have h : find_nearest_available_machine zeroDist [exMachineA, exMachineB] 30 75 none =
      some (exMachineA, 0) := by
    norm_num [find_nearest_available_machine, candidateMachines, isAvailable, zeroDist,
      exMachineA, exMachineB, pySortOn, List.insertionSort, List.orderedInsert,
      List.filter_cons]
  exact ⟨h, C7_find_nearest zeroDist [exMachineA, exMachineB] 30 75 none exMachineA 0 h⟩

theorem markUnavailable_map_id : ∀ (ms : List AMachine) (mid : String),
    (markUnavailable ms mid).map (fun m => m.id) = ms.map (fun m => m.id)
  | [], _ => rfl
  | m :: ms, mid => by
    rw [markUnavailable]
    split
    · rfl
    · rw [List.map_cons, List.map_cons, markUnavailable_map_id ms mid]

/-- After marking, no machine bearing the marked id is still available
(machine ids are unique per the roster contract). -/
theorem markUnavailable_marked (ms : List AMachine) (mid : String)
    (hids : (ms.map (fun m => m.id)).Nodup) :
    ∀ m2 ∈ markUnavailable ms mid, m2.id = mid → m2.available = some false := by
  induction ms with
  | nil => intro m2 hm2 _; simp [markUnavailable] at hm2
  | cons m ms ih =>
    intro m2 hm2 hid
    rw [markUnavailable] at hm2
    split at hm2
    · next hbeq =>
      rcases List.mem_cons.mp hm2 with rfl | hm2
      · rfl
      · exfalso
        have hmid : m.id = mid := by simpa using hbeq
        have : m.id ∈ ms.map (fun m3 => m3.id) := by
          rw [hmid, ← hid]
          exact List.mem_map_of_mem _ hm2
        exact (List.nodup_cons.mp (by simpa using hids)).1 this
    · next hbeq =>
      rcases List.mem_cons.mp hm2 with rfl | hm2
      · exact absurd (by simp [hid]) hbeq
      · exact ih (List.nodup_cons.mp (by simpa using hids)).2 m2 hm2 hid

/-- Marking only flips availability: any still-available machine of the
marked list was in the original list. -/
theorem markUnavailable_mem_of_avail (ms : List AMachine) (mid : String) :
    ∀ m2 ∈ markUnavailable ms mid, isAvailable m2 = true → m2 ∈ ms := by
  induction ms with
  | nil => intro m2 hm2 _; simp [markUnavailable] at hm2
  | cons m ms ih =>
    intro m2 hm2 hav
    rw [markUnavailable] at hm2
    split at hm2
    · rcases List.mem_cons.mp hm2 with rfl | hm2
      · exact absurd hav (by simp [isAvailable])
      · exact List.mem_cons_of_mem _ hm2
    · rcases List.mem_cons.mp hm2 with rfl | hm2
      · exact List.mem_cons_self _ _
      · exact List.mem_cons_of_mem _ (ih m2 hm2 hav)

theorem allocate_loop_length (dist : ℚ → ℚ → ℚ → ℚ → ℚ) :
    ∀ (ps : List Prediction) (ms : List AMachine),
      (allocate_loop dist ps ms).1.length + (allocate_loop dist ps ms).2.1.length =
        ps.length
  | [], _ => rfl
  | p :: ps, ms => by
    rw [allocate_loop]
    rcases hfn : find_nearest_available_machine dist ms p.lat p.lon none with _ | ⟨m, d⟩
    · simp only [List.length_cons]
      rw [← allocate_loop_length dist ps ms]
      ring
    · simp only [List.length_cons]
      rw [← allocate_loop_length dist ps (markUnavailable ms m.id)]
      ring

/-- Every allocation produced by the loop names a machine that was available
in the loop's machine list when the loop started. -/
theorem allocate_loop_alloc_avail (dist : ℚ → ℚ → ℚ → ℚ → ℚ) :
    ∀ (ps : List Prediction) (ms : List AMachine),
      ∀ a ∈ (allocate_loop dist ps ms).1,
        ∃ m2 ∈ ms, a.machine_id = m2.id ∧ isAvailable m2 = true
  | [], _ => by intro a ha; simp [allocate_loop] at ha
  | p :: ps, ms => by
    intro a ha
    rw [allocate_loop] at ha
    rcases hfn : find_nearest_available_machine dist ms p.lat p.lon none with _ | ⟨m, d⟩
    · rw [hfn] at ha
      exact allocate_loop_alloc_avail dist ps ms a ha
    · rw [hfn] at ha
      rcases List.mem_cons.mp ha with rfl | ha
      · obtain ⟨hm, hav, -, -, -, -⟩ := find_nearest_spec dist ms p.lat p.lon none m d hfn
        exact ⟨m, List.mem_of_mem_filter (candidateMachines_subset ms none m hm), rfl, hav⟩
      · obtain ⟨m2, hm2, hmid, hav⟩ :=
          allocate_loop_alloc_avail dist ps (markUnavailable ms m.id) a ha
        exact ⟨m2, markUnavailable_mem_of_avail ms m.id m2 hm2 hav, hmid, hav⟩

/-- The allocation loop never uses the same machine id twice (under the
roster contract that machine ids are unique). -/
theorem allocate_loop_nodup (dist : ℚ → ℚ → ℚ → ℚ → ℚ) :
    ∀ (ps : List Prediction) (ms : List AMachine),
      (ms.map (fun m => m.id)).Nodup →
      ((allocate_loop dist ps ms).1.map (fun a => a.machine_id)).Nodup
  | [], _ => by intro _; simp [allocate_loop]
  | p :: ps, ms => by
    intro hids
    rw [allocate_loop]
    rcases hfn : find_nearest_available_machine dist ms p.lat p.lon none with _ | ⟨m, d⟩
    · exact allocate_loop_nodup dist ps ms hids
    · have hids2 : ((markUnavailable ms m.id).map (fun m2 => m2.id)).Nodup := by
        rw [markUnavailable_map_id]
        exact hids
      simp only [List.map_cons]
      rw [List.nodup_cons]
      refine ⟨?_, allocate_loop_nodup dist ps (markUnavailable ms m.id) hids2⟩
      intro hmem
      obtain ⟨a, ha, haid⟩ := List.mem_map.mp hmem
      obtain ⟨m2, hm2, hmid, hav⟩ :=
        allocate_loop_alloc_avail dist ps (markUnavailable ms m.id) a ha
      have hm2id : m2.id = m.id := by
        rw [← hmid, haid]
        rfl
      have := markUnavailable_marked ms m.id hids m2 hm2 hm2id
      rw [isAvailable, this] at hav
      simp at hav

/-- C1: in any single run of `allocate_machines` over a roster with unique
machine ids, no machine id appears in two allocation records, and the
number of allocations plus the number of unallocated records equals the
number of input predictions. -/
theorem C1_allocation_invariants (dist : ℚ → ℚ → ℚ → ℚ → ℚ)
    (machines : List AMachine) (preds : List Prediction)
    (hids : (machines.map (fun m => m.id)).Nodup) :
    ((allocate_machines dist machines preds).1.map (fun a => a.machine_id)).Nodup ∧
    (allocate_machines dist machines preds).1.length +
      (allocate_machines dist machines preds).2.1.length = preds.length := by
  rw [allocate_machines]
  refine ⟨allocate_loop_nodup dist _ machines hids, ?_⟩
  rw [allocate_loop_length]
  exact (pySortOnDesc_perm _ preds).length_eq

/-- C1 witness: a two-machine roster with distinct ids and one prediction. -/
theorem C1_witness :
    (([exMachineA, exMachineB] : List AMachine).map (fun m => m.id)).Nodup ∧
    (((allocate_machines zeroDist [exMachineA, exMachineB]
        [exPred "A" "Punjab" 0]).1.map (fun a => a.machine_id)).Nodup ∧
      (allocate_machines zeroDist [exMachineA, exMachineB]
          [exPred "A" "Punjab" 0]).1.length +
        (allocate_machines zeroDist [exMachineA, exMachineB]
          [exPred "A" "Punjab" 0]).2.1.length = 1) := by
  have hids : (([exMachineA, exMachineB] : List AMachine).map (fun m => m.id)).Nodup := by
    simp [exMachineA, exMachineB]
  exact ⟨hids,
    C1_allocation_invariants zeroDist [exMachineA, exMachineB] [exPred "A" "Punjab" 0] hids⟩

/-! #### Heap (aliasing) theorems for the allocator -/

/-- The marking loop writes only at the allocator's private pointers. -/
theorem markUnavailableHeap_frame (h : MachineHeap) (mid : String) :
    ∀ (ptrs : List ℕ) (j : ℕ), j ∉ ptrs →
      (markUnavailableHeap h ptrs mid)[j]? = h[j]?
  | [], _, _ => rfl
  | i :: is, j, hj => by
    have hji : i ≠ j := fun hh => hj (hh ▸ List.mem_cons_self i is)
    have hjis : j ∉ is := fun hh => hj (List.mem_cons_of_mem _ hh)
    rw [markUnavailableHeap]
    split
    · split
      · exact List.getElem?_set_ne hji
      · exact markUnavailableHeap_frame h mid is j hjis
    · exact markUnavailableHeap_frame h mid is j hjis

/-- The whole allocation loop writes only at the allocator's private
pointers. -/
theorem allocate_loop_heap_frame (dist : ℚ → ℚ → ℚ → ℚ → ℚ) (ptrs : List ℕ)
    (j : ℕ) (hj : j ∉ ptrs) :
    ∀ (ps : List Prediction) (h : MachineHeap),
      ((allocate_loop_heap dist ptrs ps h).2.2)[j]? = h[j]?
  | [], _ => rfl
  | p :: ps, h => by
    rw [allocate_loop_heap]
    rcases hfn : find_nearest_available_machine dist (readMachines h ptrs)
        p.lat p.lon none with _ | ⟨m, d⟩
    · exact allocate_loop_heap_frame dist ptrs j hj ps h
    · have := allocate_loop_heap_frame dist ptrs j hj ps
        (markUnavailableHeap h ptrs m.id)
      rw [this]
      exact markUnavailableHeap_frame h m.id ptrs j hj

/-- C8: `__init__` copies the roster dicts, and `allocate_machines` mutates
only those copies: for every valid caller roster pointer, the machine
record it points to is unchanged after a full allocation run. -/
theorem C8_caller_roster_unchanged (dist : ℚ → ℚ → ℚ → ℚ → ℚ) (h : MachineHeap)
    (roster : List ℕ) (preds : List Prediction)
    (hvalid : ∀ i ∈ roster, i < h.length) :
    ∀ i ∈ roster, (allocator_run_heap dist h roster preds)[i]? = h[i]? := by
  intro i hi
  have hlen : i < h.length := hvalid i hi
  rw [allocator_run_heap]
  have hnot : i ∉ (List.range roster.length).map (fun k => k + h.length) := by
    intro hmem
    obtain ⟨k, -, hk⟩ := List.mem_map.mp hmem
    omega
  rw [initMachineCopies]
  rw [allocate_loop_heap_frame dist _ i hnot _ _]
  rw [List.getElem?_append]
  rw [if_pos hlen]

/-- C8 witness: a one-machine caller roster at heap index 0 survives a run
unchanged. -/
theorem C8_witness :
    (∀ i ∈ ([0] : List ℕ), i < ([exMachineA] : MachineHeap).length) ∧
    ∀ i ∈ ([0] : List ℕ),
      (allocator_run_heap zeroDist [exMachineA] [0] [exPred "A" "Punjab" 0])[i]? =
        ([exMachineA] : MachineHeap)[i]? := by
  have hvalid : ∀ i ∈ ([0] : List ℕ), i < ([exMachineA] : MachineHeap).length := by
    simp
  exact ⟨hvalid,
    C8_caller_roster_unchanged zeroDist [exMachineA] [0] [exPred "A" "Punjab" 0] hvalid⟩

end AgriTrack
